import Mathlib

/-!
Verification development for `moxfield_to_forge.py`, a converter from
Moxfield deck lists to Forge deck files.

The Python source is shallowly embedded:
* a card's data dictionary becomes `CardData` (an `Option` field models a
  possibly-absent dictionary key);
* the two `re` patterns used by `parse_moxfield_text` are embedded through a
  small backtracking matcher (`matchRun`) that reproduces Python's
  leftmost-match semantics with greedy/lazy repetition, specialised to the
  character classes the source uses;
* Python dictionaries (which preserve insertion order) become association
  lists `List (String × CardData)`;
* code that can raise (`card['quantity']` on a dict without that key)
  returns `Option`.
-/

/-- One card's data dictionary.  A `none` field models an absent key in the
Python dict: the line parser's full-pattern branch fills all four keys, its
fallback branch fills only `quantity`, and a structured (JSON) deck may have
any subset of keys. -/
structure CardData where
  quantity : Option Nat := none
  set : Option String := none
  collector_number : Option String := none
  special_markers : Option String := none
deriving DecidableEq

/-- The normalized deck record: `{'name': ..., 'mainboard': {...}, 'sideboard': {...}}`.
Boards are insertion-ordered association lists, mirroring Python dicts. -/
structure Deck where
  name : Option String := none
  mainboard : List (String × CardData) := []
  sideboard : List (String × CardData) := []
deriving DecidableEq

/-- The two card groups. -/
inductive Board where
  | mainboard : Board
  | sideboard : Board
deriving DecidableEq

/-- Select a board of a deck. -/
def boardOf (d : Deck) : Board → List (String × CardData)
  | Board.mainboard => d.mainboard
  | Board.sideboard => d.sideboard

/-! ### A tiny regex engine

`parse_moxfield_text` uses exactly two patterns:

  full:     `^(\d+)\s+(.+?)\s*\(([^)]+)\)\s*(\S*)\s*(.*?)$`
  fallback: `^(\d+)\s+(.+)$`

Both are sequences of literal characters and repeated character classes, so a
pattern is embedded as a `List RItem` and matched with standard backtracking
priority: a greedy repetition tries the longest count first, a lazy one the
shortest; the whole input line must be consumed (both patterns are anchored
with `^ ... $` and the line, produced by `split('\n')` plus `strip()`,
contains no newline, so `$` means end of input). -/

/-- One regex item: a literal character, or a repeated character class
(`min1` = at least one occurrence required, `greedy` = longest-first
backtracking, `cap` = this repetition is a capture group). -/
inductive RItem where
  | lit : Char → RItem
  | rep : (Char → Bool) → Bool → Bool → Bool → RItem

/-- First `some` produced by `f` along the list, in order. -/
def firstSome {α β : Type} : List α → (α → Option β) → Option β
  | [], _ => none
  | x :: xs, f =>
    match f x with
    | some y => some y
    | none => firstSome xs f

/-- Backtracking matcher.  `fuel` only drives termination (one unit per
pattern item); on success it returns the captured substrings in pattern
order.  The whole character list must be consumed. -/
def matchRun : Nat → List RItem → List Char → Option (List (List Char))
  | 0, _, _ => none
  | _ + 1, [], s => if s = [] then some [] else none
  | fuel + 1, RItem.lit c :: rest, s =>
    match s with
    | [] => none
    | x :: s' => if x = c then matchRun fuel rest s' else none
  | fuel + 1, RItem.rep cls min1 greedy cap :: rest, s =>
    let maxRun := (s.takeWhile cls).length
    let lo := if min1 then 1 else 0
    let ks :=
      if maxRun < lo then []
      else if greedy then (List.range (maxRun + 1 - lo)).map (fun i => maxRun - i)
      else (List.range (maxRun + 1 - lo)).map (fun i => lo + i)
    firstSome ks (fun k =>
      match matchRun fuel rest (s.drop k) with
      | none => none
      | some caps => some (if cap then s.take k :: caps else caps))

/-- Run a pattern against a whole line (Python `re.match` with a trailing
`$`: anchored on both sides here). -/
def reMatch (items : List RItem) (s : List Char) : Option (List (List Char)) :=
  matchRun (items.length + 1) items s

/-- Python `\d` (ASCII digits for the inputs at hand). -/
def reDigit (c : Char) : Bool := c.isDigit

/-- Python `\s`. -/
def reSpace (c : Char) : Bool := c.isWhitespace

/-- Python `.` (anything but a newline). -/
def reAny (c : Char) : Bool := !(c = '\n')

/-- Python `\S`. -/
def reNonSpace (c : Char) : Bool := !c.isWhitespace

/-- Python `[^)]`. -/
def reNonRParen (c : Char) : Bool := !(c = ')')

/-- The full card-line pattern of `parse_moxfield_text` (source line 38):
`^(\d+)\s+(.+?)\s*\(([^)]+)\)\s*(\S*)\s*(.*?)$`. -/
def fullPattern : List RItem :=
  [RItem.rep reDigit true true true,
   RItem.rep reSpace true true false,
   RItem.rep reAny true false true,
   RItem.rep reSpace false true false,
   RItem.lit '(',
   RItem.rep reNonRParen true true true,
   RItem.lit ')',
   RItem.rep reSpace false true false,
   RItem.rep reNonSpace false true true,
   RItem.rep reSpace false true false,
   RItem.rep reAny false false true]

/-- The fallback card-line pattern (source line 59): `^(\d+)\s+(.+)$`. -/
def fallbackPattern : List RItem :=
  [RItem.rep reDigit true true true,
   RItem.rep reSpace true true false,
   RItem.rep reAny true true true]

/-- Python `int()` on a run of decimal digits. -/
def digitVal (c : Char) : Nat := c.toNat - 48

/-- Value of a digit string (`int(match.group(1))`). -/
def digitsToNat (l : List Char) : Nat := l.foldl (fun a c => a * 10 + digitVal c) 0

/-- Python `str.lower()` (character-wise, ASCII case for the inputs at hand). -/
def str_lower (s : String) : String := String.mk (s.data.map Char.toLower)

/-- Python `str.strip()`: drop whitespace from both ends (character-wise,
over the ASCII whitespace the inputs at hand can contain). -/
def pyStrip (s : String) : String :=
  String.mk (((s.data.dropWhile Char.isWhitespace).reverse.dropWhile Char.isWhitespace).reverse)

/-- Python `str.split('\n')` on the character list: always at least one
(possibly empty) piece. -/
def splitNL : List Char → List (List Char)
  | [] => [[]]
  | c :: rest =>
    if c = '\n' then [] :: splitNL rest
    else
      match splitNL rest with
      | [] => [[c]]
      | x :: xs => (c :: x) :: xs

/-- Python `str.split('\n')`. -/
def pySplitLines (s : String) : List String := (splitNL s.data).map String.mk

/-! ### The line-oriented parser -/

/-- What one raw input line does to the parser state, following the body of
the `for line in lines` loop of `parse_moxfield_text` (source lines 29-68):
skip (blank / comment / unparseable), switch to the sideboard group, or add a
card with a parsed quantity and entry data. -/
inductive LineEffect where
  | skip : LineEffect
  | switch : LineEffect
  | add : String → Nat → CardData → LineEffect

/-- Decode one raw line, mirroring the source's `if` chain: strip, skip
blanks and `//` comments, recognise the (case-insensitive) sideboard
markers, then try the full pattern and the fallback pattern in that order. -/
def lineEffect (raw : String) : LineEffect :=
  let line := pyStrip raw
  if line.data = [] then LineEffect.skip
  else if line.data.take 2 = ['/', '/'] then LineEffect.skip
  else if str_lower line = "sideboard" ∨ str_lower line = "side board" then LineEffect.switch
  else
    match reMatch fullPattern line.data with
    | some [g1, g2, g3, g4, g5] =>
      LineEffect.add (pyStrip (String.mk g2)) (digitsToNat g1)
        { quantity := some (digitsToNat g1),
          set := some (pyStrip (String.mk g3)),
          collector_number := some (pyStrip (String.mk g4)),
          special_markers := some (pyStrip (String.mk g5)) }
    | _ =>
      match reMatch fallbackPattern line.data with
      | some [g1, g2] =>
        LineEffect.add (pyStrip (String.mk g2)) (digitsToNat g1)
          { quantity := some (digitsToNat g1) }
      | _ => LineEffect.skip

/-- Update an existing entry's quantity
(`deck[current_section][card_name]['quantity'] += quantity`).  Entries
created by the parser always carry a quantity; `getD 0` is only a total
stand-in for the (unreachable) missing-key case. -/
def bump (cd : CardData) (q : Nat) : CardData :=
  { cd with quantity := some (cd.quantity.getD 0 + q) }

/-- Merge one parsed card into a board: sum the quantity when the name is
already a key (keeping the first-seen metadata), otherwise append a fresh
entry (Python dict insertion order). -/
def insertCard (b : List (String × CardData)) (n : String) (q : Nat) (cd : CardData) :
    List (String × CardData) :=
  if b.any (fun p => p.1 == n) then
    b.map (fun p => if p.1 = n then (p.1, bump p.2 q) else p)
  else
    b ++ [(n, cd)]

/-- Parser state: the two boards built so far plus the active group
(`current_section`). -/
structure PState where
  mainboard : List (String × CardData)
  sideboard : List (String × CardData)
  current : Board
deriving DecidableEq

/-- Initial parser state (`current_section = 'mainboard'`, empty boards). -/
def initState : PState :=
  { mainboard := [], sideboard := [], current := Board.mainboard }

/-- One iteration of the `for line in lines` loop. -/
def processLine (st : PState) (raw : String) : PState :=
  match lineEffect raw with
  | LineEffect.skip => st
  | LineEffect.switch => { st with current := Board.sideboard }
  | LineEffect.add n q cd =>
    match st.current with
    | Board.mainboard => { st with mainboard := insertCard st.mainboard n q cd }
    | Board.sideboard => { st with sideboard := insertCard st.sideboard n q cd }

/-- The embedding of `parse_moxfield_text` (source lines 23-70): strip the whole text, split
on newlines, run the loop, return the two boards (no `name` key). -/
def parse_moxfield_text (deck_text : String) : Deck :=
  let lines := pySplitLines (pyStrip deck_text)
  let st := lines.foldl processLine initState
  { name := none, mainboard := st.mainboard, sideboard := st.sideboard }

/-- The embedding of `parse_moxfield_deck` (source lines 15-21): try the structured JSON
decode first; on failure fall back to the line-oriented parse.  The JSON
decoder is Python library code, abstracted as a parameter returning `none`
on a `JSONDecodeError`. -/
def parse_moxfield_deck (json_loads : String → Option Deck) (moxfield_data : String) : Deck :=
  match json_loads moxfield_data with
  | some d => d
  | none => parse_moxfield_text moxfield_data

/-! ### The serializer (`convert_to_forge_format`, source lines 84-174) -/

/-- The embedding of `normalize_set_code_for_forge` (source lines 72-77): drop the leading
`P` of a 4-character promo set code; leave anything else alone. -/
def normalize_set_code_for_forge (set_code : String) : String :=
  if set_code.length = 4 ∧ set_code.data.head? = some 'P' then String.mk set_code.data.tail
  else set_code

/-- The embedding of `is_basic_land` (source lines 79-82). -/
def is_basic_land (card_name : String) : Bool :=
  card_name == "Plains" || card_name == "Island" || card_name == "Swamp" ||
    card_name == "Mountain" || card_name == "Forest"

/-- The five fixed basic-land names, as a list (the source uses a set
literal). -/
def basic_lands : List String := ["Plains", "Island", "Swamp", "Mountain", "Forest"]

/-- The singleton scan of the classifier (source lines 106-110): some
mainboard entry has quantity above 1 (missing key defaults to 1) and is not
a basic land.  The Python loop with `break` is `List.any`. -/
def singleton_violation (main : List (String × CardData)) : Bool :=
  main.any (fun p => decide (1 < p.2.quantity.getD 1) && !is_basic_land p.1)

/-- Commander-deck classification (source lines 103-111): exactly 100 cards
in total and no singleton violation on the mainboard. -/
def is_commander_deck (main : List (String × CardData)) (total_cards : Nat) : Bool :=
  decide (total_cards = 100) && !singleton_violation main

/-- The board total `sum(card['quantity'] for card in board.values())`: `none` when some
entry lacks the `quantity` key (Python raises `KeyError` there). -/
def sumQuantities : List (String × CardData) → Option Nat
  | [] => some 0
  | p :: rest =>
    match p.2.quantity, sumQuantities rest with
    | some q, some s => some (q + s)
    | _, _ => none

/-- Decimal digit characters of a natural number, fuelled (the fuel only
drives termination: one unit per decimal digit). -/
def natDigitsAux : Nat → Nat → List Char
  | 0, _ => []
  | fuel + 1, n =>
    if n < 10 then [Char.ofNat (48 + n)]
    else natDigitsAux fuel (n / 10) ++ [Char.ofNat (48 + n % 10)]

/-- Decimal digit characters of a natural number (the rendering of
`f"{quantity}"`). -/
def natDigits (n : Nat) : List Char := natDigitsAux (n + 1) n

/-- Decimal rendering of a natural number. -/
def natToString (n : Nat) : String := String.mk (natDigits n)

/-- One candidate position of `re.sub(r' \/ .+$', '', card_name)`: if the
suffix starts with the literal separator, the pattern matches here exactly
when at least one character follows it; `.+` cannot cross a newline and `$`
only matches at the end or before a final newline, so a tail that contains a
newline matches only when that newline is final (and then survives the
substitution).  Returns the replacement remainder on a match. -/
def trySep (l : List Char) : Option (List Char) :=
  match l with
  | ' ' :: '/' :: ' ' :: t =>
    if t ≠ [] ∧ t.all (fun c => !(c = '\n')) then some []
    else if t.getLast? = some '\n' ∧ t.dropLast ≠ [] ∧
        t.dropLast.all (fun c => !(c = '\n')) then some ['\n']
    else none
  | _ => none

/-- Leftmost-match scan of `re.sub(r' \/ .+$', '', ...)`: try each start
position left to right; on the first match keep the prefix plus the
(possibly empty) remainder.  After a match nothing matchable remains, so one
substitution is the general behaviour. -/
def stripSplitAux : List Char → List Char
  | [] => []
  | c :: cs =>
    match trySep (c :: cs) with
    | some rem => rem
    | none => c :: stripSplitAux cs

/-- The split-card stripping `name = re.sub(r' \/ .+$', '', card_name)` (source line 116). -/
def strip_split (card_name : String) : String := String.mk (stripSplitAux card_name.data)

/-- Shared card-line rendering (source lines 122-131 and 161-170 are
textually identical): `"<qty> <name>"`, then `"|<set>"` and `"|[<coll>]"`
when those strings are non-empty (Python truthiness), then a space and the
markers when non-empty. -/
def card_line (quantity : Nat) (name set_code collector_number special_markers : String) :
    String :=
  let base := natToString quantity ++ " " ++ name
  let withSet :=
    if set_code ≠ "" then
      base ++ "|" ++ normalize_set_code_for_forge set_code ++
        (if collector_number ≠ "" then "|[" ++ collector_number ++ "]" else "")
    else base
  if special_markers ≠ "" then withSet ++ " " ++ special_markers else withSet

/-- One rendered mainboard line (source lines 114-133): split-card suffix
stripped from the name, missing dict keys defaulted (`.get`). -/
def forge_main_line (card_name : String) (card_data : CardData) : String :=
  card_line (card_data.quantity.getD 1) (strip_split card_name) (card_data.set.getD "")
    (card_data.collector_number.getD "") (card_data.special_markers.getD "")

/-- One rendered sideboard line (source lines 155-170): the name is used
verbatim, no split-card stripping. -/
def forge_side_line (card_name : String) (card_data : CardData) : String :=
  card_line (card_data.quantity.getD 1) card_name (card_data.set.getD "")
    (card_data.collector_number.getD "") (card_data.special_markers.getD "")

/-- The embedding of `mainboard_cards` (source lines 113-133): all rendered mainboard lines
in insertion order. -/
def mainboard_cards (main : List (String × CardData)) : List String :=
  main.map (fun p => forge_main_line p.1 p.2)

/-- The `[metadata]` header and `Name=` line (source lines 89-91). -/
def metadata_lines (d : Deck) : List String :=
  ["[metadata]", "Name=" ++ d.name.getD "Converted Deck"]

/-- The sideboard section (source lines 151-172): emitted only when the
sideboard is non-empty. -/
def sideboard_lines (side : List (String × CardData)) : List String :=
  match side with
  | [] => []
  | _ => "[Sideboard]" :: side.map (fun p => forge_side_line p.1 p.2)

/-- The body of `convert_to_forge_format` as a line list (source lines 84-173).  A `none`
models the `KeyError` raised while computing the card totals when an entry
lacks its `quantity` key; the totals are computed before any section is
emitted, so the failure aborts the whole conversion. -/
def convert_lines (d : Deck) : Option (List String) :=
  match sumQuantities d.mainboard, sumQuantities d.sideboard with
  | some tm, some ts =>
    let mb := mainboard_cards d.mainboard
    let cmd := is_commander_deck d.mainboard (tm + ts)
    let mainSec :=
      match cmd, mb with
      | true, x :: xs => ["[Commander]", x, "[Main]"] ++ xs
      | _, _ => "[Main]" :: mb
    some (metadata_lines d ++ mainSec ++ sideboard_lines d.sideboard)
  | _, _ => none

/-- The embedding of `convert_to_forge_format` proper: the joined output text
(`'\n'.join(forge_deck)`, source line 174). -/
def convert_to_forge_format (d : Deck) : Option String :=
  (convert_lines d).map (fun ls => String.intercalate "\n" ls)

/-- Spec-side reading used by the claims: the quantity a reader sees at the
front of a rendered card line (its leading run of digits, as a number). -/
def renderedQuantity (s : String) : Nat := digitsToNat (s.data.takeWhile reDigit)

/-- Does a character list begin with the split-card separator " / "? -/
def startsSep : List Char → Bool
  | ' ' :: '/' :: ' ' :: _ => true
  | _ => false

/-- Spec-side reading: index of the first occurrence of the split-card
separator " / " in a character list. -/
def sepIndexAux : List Char → Option Nat
  | [] => none
  | c :: cs =>
    if startsSep (c :: cs) then some 0 else (sepIndexAux cs).map Nat.succ

/-! ### Derived views of boards and of the parsing loop

These definitions do not add behaviour: they name the quantities the
invariant claims speak about (key multiplicity, first entry under a key,
and the stream of card additions a line sequence feeds into each board). -/

/-- Python `card_name in deck[current_section]`. -/
def hasKey (n : String) (b : List (String × CardData)) : Bool :=
  b.any (fun p => p.1 == n)

/-- How many entries a board stores under one name. -/
def keyCount (n : String) (b : List (String × CardData)) : Nat :=
  b.countP (fun p => p.1 == n)

/-- The entry a board stores under one name (first in insertion order). -/
def findEntry (n : String) (b : List (String × CardData)) : Option (String × CardData) :=
  b.find? (fun p => p.1 == n)

/-- The card additions (name, parsed quantity, entry data) a line sequence
contributes to one board, tracking the active group exactly as the parse
loop does. -/
def effectsFrom : Board → List String → Board → List (String × Nat × CardData)
  | _, [], _ => []
  | cur, l :: ls, b =>
    match lineEffect l with
    | LineEffect.skip => effectsFrom cur ls b
    | LineEffect.switch => effectsFrom Board.sideboard ls b
    | LineEffect.add n q cd =>
      (if cur = b then [(n, q, cd)] else []) ++ effectsFrom cur ls b

/-- The card additions a whole input text contributes to one board. -/
def textEffects (deck_text : String) (b : Board) : List (String × Nat × CardData) :=
  effectsFrom Board.mainboard (pySplitLines (pyStrip deck_text)) b

/-- The additions under one name, in input order. -/
def addsFor (n : String) (adds : List (String × Nat × CardData)) :
    List (String × Nat × CardData) :=
  adds.filter (fun a => a.1 == n)

/-- Fold a batch of additions into a board. -/
def foldIns (b : List (String × CardData)) (adds : List (String × Nat × CardData)) :
    List (String × CardData) :=
  adds.foldl (fun acc a => insertCard acc a.1 a.2.1 a.2.2) b

/-- Apply a batch of quantity updates to one entry's data. -/
def bumpFold (cd : CardData) (adds : List (String × Nat × CardData)) : CardData :=
  adds.foldl (fun c a => bump c a.2.1) cd

/-! ### Basic string facts used throughout -/

/-- Appending strings appends their character lists. -/
theorem str_data_append (s t : String) : (s ++ t).data = s.data ++ t.data := by
  cases s; cases t; rfl

/-- A string's length is the length of its character list. -/
theorem string_length_eq (s : String) : s.length = s.data.length := rfl

/-! ### C7 — promo set-code normalization -/

/-- C7: `normalize_set_code_for_forge` removes the first character exactly
when the set code has 4 characters and starts with `P` (and then the result
really differs from the input); every other code is returned unchanged.  The
serializer applies this one function on both the mainboard path and the
sideboard path (`card_line` is shared by `forge_main_line` and
`forge_side_line`). -/
theorem c7_normalize_set_code (set_code : String) :
    ((set_code.length = 4 ∧ set_code.data.head? = some 'P') →
      (normalize_set_code_for_forge set_code).data = set_code.data.tail ∧
      normalize_set_code_for_forge set_code ≠ set_code) ∧
    (¬(set_code.length = 4 ∧ set_code.data.head? = some 'P') →
      normalize_set_code_for_forge set_code = set_code) := by
  constructor
  · intro h
    constructor
    · rw [normalize_set_code_for_forge, if_pos h]
    · intro heq
      have hd := congrArg String.data heq
      rw [normalize_set_code_for_forge, if_pos h] at hd
      have h4 : set_code.data.length = 4 := by
        have := h.1; rwa [string_length_eq] at this
      have ht : set_code.data.tail.length = 3 := by
        rw [List.length_tail, h4]
      have : (String.mk set_code.data.tail).data = set_code.data.tail := rfl
      rw [this] at hd
      have := congrArg List.length hd
      omega
  · intro h
    rw [normalize_set_code_for_forge, if_neg h]

/-- Witness for C7 at the promo code `PMKM` and the plain code `MKM`. -/
theorem c7_normalize_set_code_witness :
    (("PMKM" : String).length = 4 ∧ ("PMKM" : String).data.head? = some 'P') ∧
    (normalize_set_code_for_forge "PMKM").data = ("PMKM" : String).data.tail ∧
    ¬(("MKM" : String).length = 4 ∧ ("MKM" : String).data.head? = some 'P') ∧
    normalize_set_code_for_forge "MKM" = "MKM" :=
  ⟨by decide, ((c7_normalize_set_code "PMKM").1 (by decide)).1, by decide,
    (c7_normalize_set_code "MKM").2 (by decide)⟩

/-! ### C8 — structured-decode failure falls back to line parsing -/

/-- C8: `parse_moxfield_deck` first attempts the structured (JSON) decode;
whenever that decode fails it returns the line-oriented parse of the same
text.  The function is total, so the decode failure is never propagated. -/
theorem c8_structured_fallback (json_loads : String → Option Deck) (moxfield_data : String)
    (h : json_loads moxfield_data = none) :
    parse_moxfield_deck json_loads moxfield_data = parse_moxfield_text moxfield_data := by
  rw [parse_moxfield_deck, h]

/-- Witness for C8: a decoder that fails on everything falls back to the
line parse of a concrete deck text. -/
theorem c8_structured_fallback_witness :
    ((fun _ : String => (none : Option Deck)) "1 Sol Ring (MIC) 162" = none) ∧
    parse_moxfield_deck (fun _ => none) "1 Sol Ring (MIC) 162" =
      parse_moxfield_text "1 Sol Ring (MIC) 162" :=
  ⟨rfl, c8_structured_fallback (fun _ => none) "1 Sol Ring (MIC) 162" rfl⟩

/-! ### C9 — blank/comment skipping and the sideboard switch -/

/-- A blank or `//`-comment line is skipped. -/
theorem lineEffect_skip_of (raw : String)
    (h : (pyStrip raw).data = [] ∨ (pyStrip raw).data.take 2 = ['/', '/']) :
    lineEffect raw = LineEffect.skip := by
  rcases h with h | h
  · simp [lineEffect, h]
  · simp [lineEffect, h]

/-- A (trimmed, case-folded) `sideboard` / `side board` marker line switches
to the sideboard group. -/
theorem lineEffect_switch_of (raw : String)
    (h : str_lower (pyStrip raw) = "sideboard" ∨ str_lower (pyStrip raw) = "side board") :
    lineEffect raw = LineEffect.switch := by
  have hne : ¬((pyStrip raw).data = []) := by
    intro h0
    have hl : str_lower (pyStrip raw) = "" := by
      rw [str_lower, h0]; rfl
    rcases h with h | h <;> (rw [hl] at h; exact absurd h (by decide))
  have hslash : ¬((pyStrip raw).data.take 2 = ['/', '/']) := by
    intro h0
    have : ∃ rest, (pyStrip raw).data = '/' :: '/' :: rest := by
      cases hd : (pyStrip raw).data with
      | nil => rw [hd] at h0; simp at h0
      | cons a l =>
        cases l with
        | nil => rw [hd] at h0; simp at h0
        | cons b r =>
          rw [hd] at h0
          simp at h0
          exact ⟨r, by rw [h0.1, h0.2]⟩
    obtain ⟨rest, hrest⟩ := this
    have hl : (str_lower (pyStrip raw)).data = '/' :: '/' :: rest.map Char.toLower := by
      rw [str_lower, hrest]; rfl
    rcases h with h | h <;> (rw [h] at hl; simp at hl)
  simp [lineEffect, hne, hslash, h]

/-- C9: blank lines and `//` lines leave the parser state unchanged (no
entry); a line whose trimmed, case-folded content is `sideboard` or
`side board` only switches the active group to the sideboard (boards
untouched, so no entry); parsing starts with the mainboard active; and no
line ever switches the active group back from sideboard to mainboard. -/
theorem c9_line_handling (st : PState) (raw : String) :
    (((pyStrip raw).data = [] ∨ (pyStrip raw).data.take 2 = ['/', '/']) → processLine st raw = st) ∧
    ((str_lower (pyStrip raw) = "sideboard" ∨ str_lower (pyStrip raw) = "side board") →
      processLine st raw = { st with current := Board.sideboard }) ∧
    initState.current = Board.mainboard ∧
    (st.current = Board.sideboard → (processLine st raw).current = Board.sideboard) := by
  refine ⟨fun h => ?_, fun h => ?_, rfl, fun h => ?_⟩
  · rw [processLine, lineEffect_skip_of raw h]
  · rw [processLine, lineEffect_switch_of raw h]
  · rw [processLine]
    cases lineEffect raw with
    | skip => exact h
    | switch => rfl
    | add n q cd => rw [h]

/-- Witness for C9: a comment line is skipped, and a `SideBoard` marker
(mixed case, surrounding blanks) switches the active group. -/
theorem c9_line_handling_witness :
    ((pyStrip "// a comment").data = [] ∨
      (pyStrip "// a comment").data.take 2 = ['/', '/']) ∧
    processLine initState "// a comment" = initState ∧
    (str_lower (pyStrip "  SideBoard  ") = "sideboard" ∨
      str_lower (pyStrip "  SideBoard  ") = "side board") ∧
    processLine initState "  SideBoard  " = { initState with current := Board.sideboard } :=
  ⟨Or.inr (by decide), (c9_line_handling initState "// a comment").1 (Or.inr (by decide)),
   Or.inl (by decide), (c9_line_handling initState "  SideBoard  ").2.1 (Or.inl (by decide))⟩

/-! ### C10 — a missing `quantity` key: totals fail, scan and renderer default to 1 -/

/-- The board total raises (is `none`) as soon as some entry lacks its
`quantity` key. -/
theorem sumQuantities_eq_none_of_mem (l : List (String × CardData)) (p : String × CardData)
    (hmem : p ∈ l) (hq : p.2.quantity = none) : sumQuantities l = none := by
  induction l with
  | nil => cases hmem
  | cons a rest ih =>
    rcases List.mem_cons.mp hmem with h | h
    · subst h
      simp [sumQuantities, hq]
    · rw [sumQuantities, ih h]
      cases a.2.quantity <;> rfl

/-- Filling every missing `quantity` with 1 does not change the singleton
scan: the scan already reads a missing key as 1 (`.get('quantity', 1)`). -/
theorem singleton_violation_fill_ones (main : List (String × CardData)) :
    singleton_violation (main.map (fun r =>
      if r.2.quantity = none then (r.1, { r.2 with quantity := some 1 }) else r)) =
      singleton_violation main := by
  induction main with
  | nil => rfl
  | cons r rest ih =>
    simp only [singleton_violation, List.map_cons, List.any_cons] at *
    rw [ih]
    cases hr : r.2.quantity <;> simp [hr]

/-- C10: when any entry of either board lacks its `quantity` key, the
classifier's total-card computation fails and the whole conversion aborts
(`KeyError` on `card['quantity']`), even though the singleton-violation scan
and both line renderers read the missing key as 1 — classification and
serialization disagree on such pass-through records. -/
theorem c10_missing_quantity (d : Deck) (p : String × CardData)
    (hmem : p ∈ d.mainboard ∨ p ∈ d.sideboard) (hq : p.2.quantity = none) :
    convert_lines d = none ∧ convert_to_forge_format d = none ∧
    forge_main_line p.1 p.2 = forge_main_line p.1 { p.2 with quantity := some 1 } ∧
    forge_side_line p.1 p.2 = forge_side_line p.1 { p.2 with quantity := some 1 } ∧
    singleton_violation (d.mainboard.map (fun r =>
      if r.2.quantity = none then (r.1, { r.2 with quantity := some 1 }) else r)) =
      singleton_violation d.mainboard := by
  have hcl : convert_lines d = none := by
    rcases hmem with hm | hs
    · rw [convert_lines, sumQuantities_eq_none_of_mem _ _ hm hq]
    · rw [convert_lines, sumQuantities_eq_none_of_mem _ _ hs hq]
      cases sumQuantities d.mainboard <;> rfl
  refine ⟨hcl, by rw [convert_to_forge_format, hcl]; rfl, ?_, ?_,
    singleton_violation_fill_ones d.mainboard⟩
  · simp [forge_main_line, hq]
  · simp [forge_side_line, hq]

/-- Witness for C10: a one-card deck whose entry has no quantity key. -/
theorem c10_missing_quantity_witness :
    (("Opt", ({} : CardData)) ∈ (Deck.mk none [("Opt", {})] []).mainboard ∨
      ("Opt", ({} : CardData)) ∈ (Deck.mk none [("Opt", {})] []).sideboard) ∧
    convert_lines (Deck.mk none [("Opt", {})] []) = none ∧
    convert_to_forge_format (Deck.mk none [("Opt", {})] []) = none :=
  ⟨Or.inl (by decide),
   (c10_missing_quantity _ ("Opt", {}) (Or.inl (by decide)) rfl).1,
   (c10_missing_quantity _ ("Opt", {}) (Or.inl (by decide)) rfl).2.1⟩

/-! ### C1 — singleton-format classification -/

/-- The check `is_basic_land` recognises exactly the five fixed basic-land names. -/
theorem is_basic_land_mem (n : String) : is_basic_land n = true ↔ n ∈ basic_lands := by
  simp [is_basic_land, basic_lands]
  tauto

/-- If a board total computes, every entry of that board has its quantity
key. -/
theorem sumQuantities_isSome_mem (l : List (String × CardData))
    (h : (sumQuantities l).isSome = true) : ∀ p ∈ l, ∃ q, p.2.quantity = some q := by
  induction l with
  | nil => intro p hp; cases hp
  | cons a rest ih =>
    rw [sumQuantities] at h
    cases ha : a.2.quantity with
    | none =>
      cases hr : sumQuantities rest <;> rw [ha, hr] at h <;> simp at h
    | some q =>
      cases hr : sumQuantities rest with
      | none => rw [ha, hr] at h; simp at h
      | some s =>
        intro p hp
        rcases List.mem_cons.mp hp with h' | hp'
        · exact ⟨q, by rw [h', ha]⟩
        · exact ih (by rw [hr]; rfl) p hp'

/-- C1: with both board totals computed, the deck classifies as
singleton-format exactly when the combined total is 100 and no mainboard
entry has quantity above 1 under a name outside the five basic lands.  The
sideboard is never inspected by the scan: the right-hand side places no
condition on sideboard entries beyond their contribution to the total. -/
theorem c1_singleton_classification (d : Deck) (tm ts : Nat)
    (hm : sumQuantities d.mainboard = some tm) (hs : sumQuantities d.sideboard = some ts) :
    is_commander_deck d.mainboard (tm + ts) = true ↔
      (tm + ts = 100 ∧ ∀ p ∈ d.mainboard, ∀ q, p.2.quantity = some q → 1 < q →
        p.1 ∈ basic_lands) := by
  have hprop : is_commander_deck d.mainboard (tm + ts) = true ↔
      (tm + ts = 100 ∧ singleton_violation d.mainboard = false) := by
    simp [is_commander_deck]
  rw [hprop]
  have hsv : singleton_violation d.mainboard = false ↔
      ∀ p ∈ d.mainboard, ∀ q, p.2.quantity = some q → 1 < q → p.1 ∈ basic_lands := by
    rw [singleton_violation]
    rw [List.any_eq_false]
    constructor
    · intro h p hp q hq hlt
      have hx := h p hp
      rw [hq] at hx
      simp [hlt] at hx
      exact (is_basic_land_mem p.1).mp hx
    · intro h p hp
      obtain ⟨q, hq⟩ := sumQuantities_isSome_mem _ (by rw [hm]; rfl) p hp
      rw [hq]
      simp only [Option.getD_some, Bool.and_eq_true, decide_eq_true_eq, Bool.not_eq_true',
        not_and]
      intro hlt
      rw [← Bool.not_eq_true]
      intro hb
      exact absurd ((is_basic_land_mem p.1).mpr (h p hp q hq hlt)) (by simp [hb])
  rw [hsv]

/-- Witness for C1: a 100-card deck (61 mainboard + 39 sideboard) with
repeated Forests and otherwise singleton mainboard classifies as
singleton-format. -/
theorem c1_singleton_classification_witness :
    sumQuantities (Deck.mk none [("Forest", { quantity := some 60 }),
        ("Sol Ring", { quantity := some 1 })] [("Brainstorm", { quantity := some 39 })]).mainboard
      = some 61 ∧
    sumQuantities (Deck.mk none [("Forest", { quantity := some 60 }),
        ("Sol Ring", { quantity := some 1 })] [("Brainstorm", { quantity := some 39 })]).sideboard
      = some 39 ∧
    (is_commander_deck (Deck.mk none [("Forest", { quantity := some 60 }),
        ("Sol Ring", { quantity := some 1 })] [("Brainstorm", { quantity := some 39 })]).mainboard
        (61 + 39) = true ↔
      (61 + 39 = 100 ∧ ∀ p ∈ (Deck.mk none [("Forest", { quantity := some 60 }),
          ("Sol Ring", { quantity := some 1 })]
          [("Brainstorm", { quantity := some 39 })]).mainboard,
        ∀ q, p.2.quantity = some q → 1 < q → p.1 ∈ basic_lands)) :=
  ⟨by decide, by decide, c1_singleton_classification _ 61 39 (by decide) (by decide)⟩

/-! ### C2 — section layout of the serializer -/

/-- C2: with both board totals computed, the output opens a `[Commander]`
section holding exactly the first rendered mainboard line followed by a
`[Main]` section holding the remaining rendered mainboard lines in order,
precisely when the deck classified as singleton-format and at least one
mainboard line was rendered; in every other case a single `[Main]` section
holds all rendered mainboard lines in order.  (The two cases are exhaustive
and their hypotheses mutually exclusive.) -/
theorem c2_section_layout (d : Deck) (tm ts : Nat)
    (hm : sumQuantities d.mainboard = some tm) (hs : sumQuantities d.sideboard = some ts) :
    (∀ x xs, mainboard_cards d.mainboard = x :: xs →
      is_commander_deck d.mainboard (tm + ts) = true →
      convert_lines d = some (metadata_lines d ++ (["[Commander]", x, "[Main]"] ++ xs) ++
        sideboard_lines d.sideboard)) ∧
    ((is_commander_deck d.mainboard (tm + ts) = false ∨ mainboard_cards d.mainboard = []) →
      convert_lines d = some (metadata_lines d ++ ("[Main]" :: mainboard_cards d.mainboard) ++
        sideboard_lines d.sideboard)) := by
  constructor
  · intro x xs hmb hcmd
    simp only [convert_lines, hm, hs]
    rw [hcmd, hmb]
  · intro h
    simp only [convert_lines, hm, hs]
    split
    · rename_i a b heq1 heq2
      rcases h with hc | hc
      · rw [hc] at heq1; cases heq1
      · rw [hc] at heq2; cases heq2
    · rfl

/-- Witness for C2: a 100-card singleton deck renders with a `[Commander]`
section holding its first mainboard line; the demo-like 2-card deck renders
with a single `[Main]` section. -/
theorem c2_section_layout_witness :
    sumQuantities (Deck.mk none [("Kaalia of the Vast",
        CardData.mk (some 1) (some "MH3") (some "290") (some "")),
        ("Forest", CardData.mk (some 99) none none none)] []).mainboard = some 100 ∧
    convert_lines (Deck.mk none [("Kaalia of the Vast",
        CardData.mk (some 1) (some "MH3") (some "290") (some "")),
        ("Forest", CardData.mk (some 99) none none none)] []) =
      some ["[metadata]", "Name=Converted Deck", "[Commander]",
        "1 Kaalia of the Vast|MH3|[290]", "[Main]", "99 Forest"] ∧
    convert_lines (Deck.mk none [("Sol Ring", CardData.mk (some 2) none none none)] []) =
      some ["[metadata]", "Name=Converted Deck", "[Main]", "2 Sol Ring"] := by
  refine ⟨by decide, ?_, ?_⟩
  · have h := (c2_section_layout (Deck.mk none [("Kaalia of the Vast",
        CardData.mk (some 1) (some "MH3") (some "290") (some "")),
        ("Forest", CardData.mk (some 99) none none none)] []) 100 0
        (by decide) (by decide)).1
        "1 Kaalia of the Vast|MH3|[290]" ["99 Forest"] (by decide) (by decide)
    rw [h]
    decide
  · have h := (c2_section_layout (Deck.mk none
        [("Sol Ring", CardData.mk (some 2) none none none)] []) 2 0
        (by decide) (by decide)).2 (Or.inl (by decide))
    rw [h]
    decide

/-! ### C5 — rendered mainboard quantities are lossless -/

/-- A rendered decimal digit character is a digit. -/
theorem reDigit_ofNat (d : Nat) (h : d < 10) : reDigit (Char.ofNat (48 + d)) = true := by
  interval_cases d <;> decide

/-- Reading a rendered decimal digit character back gives the digit. -/
theorem digitVal_ofNat (d : Nat) (h : d < 10) : digitVal (Char.ofNat (48 + d)) = d := by
  interval_cases d <;> decide

/-- Every character of a decimal rendering is a digit (fuelled form). -/
theorem natDigitsAux_isDigit (fuel : Nat) : ∀ (n : Nat), n < fuel →
    ∀ c ∈ natDigitsAux fuel n, reDigit c = true := by
  induction fuel with
  | zero => intro n h; omega
  | succ fuel ih =>
    intro n _ c hc
    rw [natDigitsAux] at hc
    split at hc
    · rename_i h10
      simp at hc
      subst hc
      exact reDigit_ofNat n h10
    · rename_i h10
      rcases List.mem_append.mp hc with hc | hc
      · have hlt : n / 10 < fuel := by
          have := Nat.div_lt_self (show 0 < n by omega) (show 1 < 10 by omega)
          have := Nat.div_le_self n 10
          omega
        exact ih (n / 10) hlt c hc
      · simp at hc
        subst hc
        exact reDigit_ofNat (n % 10) (Nat.mod_lt _ (by omega))

/-- Every character of a decimal rendering is a digit. -/
theorem natDigits_isDigit (n : Nat) : ∀ c ∈ natDigits n, reDigit c = true :=
  natDigitsAux_isDigit (n + 1) n (by omega)

/-- Reading a digit string extended by one digit. -/
theorem digitsToNat_append (xs : List Char) (c : Char) :
    digitsToNat (xs ++ [c]) = digitsToNat xs * 10 + digitVal c := by
  rw [digitsToNat, digitsToNat, List.foldl_append]
  rfl

/-- The decimal rendering reads back to the rendered number (fuelled form). -/
theorem digitsToNat_natDigitsAux (fuel : Nat) : ∀ (n : Nat), n < fuel →
    digitsToNat (natDigitsAux fuel n) = n := by
  induction fuel with
  | zero => intro n h; omega
  | succ fuel ih =>
    intro n _
    rw [natDigitsAux]
    split
    · rename_i h10
      rw [digitsToNat]
      simp [digitVal_ofNat n h10]
    · rename_i h10
      rw [digitsToNat_append]
      have hlt : n / 10 < fuel := by
        have := Nat.div_lt_self (show 0 < n by omega) (show 1 < 10 by omega)
        have := Nat.div_le_self n 10
        omega
      rw [ih (n / 10) hlt, digitVal_ofNat (n % 10) (Nat.mod_lt _ (by omega))]
      have := Nat.div_add_mod n 10
      omega

/-- The decimal rendering reads back to the rendered number. -/
theorem digitsToNat_natDigits (n : Nat) : digitsToNat (natDigits n) = n :=
  digitsToNat_natDigitsAux (n + 1) n (by omega)

/-- A `takeWhile` over a run that all satisfies the predicate stops exactly at the
first failing character. -/
theorem takeWhile_append_stop (p : Char → Bool) (xs : List Char) (y : Char) (ys : List Char)
    (hall : ∀ c ∈ xs, p c = true) (hy : p y = false) :
    (xs ++ y :: ys).takeWhile p = xs := by
  induction xs with
  | nil => simp [List.takeWhile, hy]
  | cons a l ih =>
    have ha := hall a (by simp)
    simp only [List.cons_append, List.takeWhile, ha, List.append_eq]
    rw [ih (fun c hc => hall c (by simp [hc]))]

/-- A card line starts with the decimal quantity followed by a space; that
shape survives appending more text. -/
theorem natPrefix_append (q : Nat) (s u : String)
    (h : ∃ t, s.data = natDigits q ++ ' ' :: t) :
    ∃ t, (s ++ u).data = natDigits q ++ ' ' :: t := by
  obtain ⟨t, ht⟩ := h
  exact ⟨t ++ u.data, by rw [str_data_append, ht]; simp⟩

/-- The base of every card line: quantity, space, name. -/
theorem natPrefix_base (q : Nat) (name : String) :
    ∃ t, (natToString q ++ " " ++ name).data = natDigits q ++ ' ' :: t := by
  refine ⟨name.data, ?_⟩
  have hsp : (" " : String).data = [' '] := rfl
  rw [str_data_append, str_data_append]
  rw [show (natToString q).data = natDigits q from rfl, hsp]
  simp

/-- The quantity printed at the front of a card line is the quantity the
line was rendered from. -/
theorem renderedQuantity_card_line (q : Nat) (name set_code coll sm : String) :
    renderedQuantity (card_line q name set_code coll sm) = q := by
  obtain ⟨t, ht⟩ : ∃ t, (card_line q name set_code coll sm).data = natDigits q ++ ' ' :: t := by
    simp only [card_line]
    split
    · apply natPrefix_append
      apply natPrefix_append
      split
      · apply natPrefix_append
        apply natPrefix_append
        apply natPrefix_append
        exact natPrefix_base q name
      · exact natPrefix_base q name
    · split
      · apply natPrefix_append
        apply natPrefix_append
        apply natPrefix_append
        exact natPrefix_base q name
      · exact natPrefix_base q name
  rw [renderedQuantity, ht,
    takeWhile_append_stop reDigit (natDigits q) ' ' t (natDigits_isDigit q) (by decide),
    digitsToNat_natDigits]

/-- C5: the rendered mainboard card lines (the Commander line, when the
layout has one, is the first of them) carry, in their leading numbers, the
exact quantities of the mainboard entries: their sum equals the mainboard
total computed from the record. -/
theorem c5_lossless_quantities (d : Deck) (tm : Nat)
    (hm : sumQuantities d.mainboard = some tm) :
    ((mainboard_cards d.mainboard).map renderedQuantity).sum = tm := by
  have H : ∀ (main : List (String × CardData)) (t : Nat), sumQuantities main = some t →
      ((mainboard_cards main).map renderedQuantity).sum = t := by
    intro main
    induction main with
    | nil =>
      intro t h
      rw [sumQuantities] at h
      injection h
    | cons a rest ih =>
      intro t h
      rw [sumQuantities] at h
      cases ha : a.2.quantity with
      | none => cases hr : sumQuantities rest <;> rw [ha, hr] at h <;> cases h
      | some q =>
        cases hr : sumQuantities rest with
        | none => rw [ha, hr] at h; cases h
        | some s =>
          rw [ha, hr] at h
          injection h with h
          subst h
          simp only [mainboard_cards, List.map_cons, List.sum_cons] at *
          rw [ih s hr]
          have : renderedQuantity (forge_main_line a.1 a.2) = q := by
            rw [forge_main_line, ha]
            exact renderedQuantity_card_line q _ _ _ _
          rw [this]
  exact H d.mainboard tm hm

/-- Witness for C5 on a two-entry mainboard totalling 14. -/
theorem c5_lossless_quantities_witness :
    sumQuantities (Deck.mk none [("Relentless Rats", CardData.mk (some 10) none none none),
        ("Lightning Bolt", CardData.mk (some 4) (some "PLST") (some "42") (some "*F*"))]
        []).mainboard = some 14 ∧
    ((mainboard_cards (Deck.mk none
        [("Relentless Rats", CardData.mk (some 10) none none none),
        ("Lightning Bolt", CardData.mk (some 4) (some "PLST") (some "42") (some "*F*"))]
        []).mainboard).map renderedQuantity).sum = 14 :=
  ⟨by decide, c5_lossless_quantities _ 14 (by decide)⟩

/-! ### C6 — split-card stripping -/

/-- A list starts with the separator exactly when it has the separator
shape. -/
theorem startsSep_shape (l : List Char) :
    startsSep l = true ↔ ∃ t, l = ' ' :: '/' :: ' ' :: t := by
  constructor
  · intro h
    unfold startsSep at h
    split at h
    · rename_i t
      exact ⟨t, rfl⟩
    · cases h
  · rintro ⟨t, rfl⟩
    rfl

/-- Where the separator does not start, `re.sub`'s pattern cannot match. -/
theorem trySep_none (l : List Char) (h : startsSep l = false) : trySep l = none := by
  unfold trySep
  split
  · rename_i t
    rw [show startsSep (' ' :: '/' :: ' ' :: t) = true from rfl] at h
    cases h
  · rfl

/-- At a separator followed by a non-empty newline-free tail, the pattern
matches the whole suffix and the substitution leaves nothing of it. -/
theorem trySep_all (t : List Char) (hne : t ≠ [])
    (hall : (t.all fun c => !(c = '\n')) = true) :
    trySep (' ' :: '/' :: ' ' :: t) = some [] := by
  simp [trySep, hne, hall]

/-- For a newline-free name whose first separator occurrence is followed by
at least one character, the substitution keeps exactly the text before that
occurrence. -/
theorem stripSplitAux_take (l : List Char) : ∀ i : Nat,
    (l.all fun c => !(c = '\n')) = true → sepIndexAux l = some i → i + 3 < l.length →
    stripSplitAux l = l.take i := by
  induction l with
  | nil => intro i _ h; cases h
  | cons c cs ih =>
    intro i hall hsep hlen
    rw [sepIndexAux] at hsep
    by_cases hs : startsSep (c :: cs) = true
    · rw [if_pos hs] at hsep
      injection hsep with hi
      subst hi
      obtain ⟨t, ht⟩ := (startsSep_shape _).mp hs
      rw [ht] at hall hlen ⊢
      have hne : t ≠ [] := by
        intro h0
        rw [h0] at hlen
        simp at hlen
      have hallt : (t.all fun c => !(c = '\n')) = true := by
        simp [List.all_eq_true] at hall ⊢
        intro c hc
        exact hall c hc
      rw [stripSplitAux, trySep_all t hne hallt]
      rfl
    · have hs' : startsSep (c :: cs) = false := by
        revert hs; cases startsSep (c :: cs) <;> simp
      rw [if_neg hs] at hsep
      obtain ⟨j, hj, hji⟩ := Option.map_eq_some'.mp hsep
      subst hji
      rw [stripSplitAux, trySep_none _ hs']
      have hallcs : (cs.all fun c => !(c = '\n')) = true := by
        simp [List.all_eq_true] at hall ⊢
        intro c hc
        exact hall.2 c hc
      have hlencs : j + 3 < cs.length := by
        simp at hlen
        omega
      rw [ih j hallcs hj hlencs]
      rfl

/-- Counterexample to C6 as stated: the mainboard name `"Fire / "` contains
the separator `" / "` (at index 4, with nothing after it), the text before
the first occurrence is `"Fire"`, yet the rendered line keeps the name
unchanged: the pattern `' \/ .+$'` needs at least one character after the
separator, so no stripping happens. -/
theorem c6_split_strip_counterexample :
    sepIndexAux ("Fire / " : String).data = some 4 ∧
    String.mk (("Fire / " : String).data.take 4) = "Fire" ∧
    forge_main_line "Fire / " { quantity := some 1 } = "1 Fire / " ∧
    card_line 1 "Fire" "" "" "" = "1 Fire" ∧
    ("1 Fire / " : String) ≠ "1 Fire" := by decide

/-- C6 amended: for every mainboard entry whose (newline-free) name
contains the separator `" / "` with at least one character after its first
occurrence, the serializer renders only the text before that occurrence; a
name whose separator is terminal is rendered unchanged (see the
counterexample).  Sideboard names are always rendered verbatim, with no
split-card stripping. -/
theorem c6_amended_split_strip (name : String) (cd : CardData) (i : Nat)
    (hnl : (name.data.all fun c => !(c = '\n')) = true)
    (hsep : sepIndexAux name.data = some i)
    (hlen : i + 3 < name.data.length) :
    strip_split name = String.mk (name.data.take i) ∧
    forge_main_line name cd = card_line (cd.quantity.getD 1) (String.mk (name.data.take i))
      (cd.set.getD "") (cd.collector_number.getD "") (cd.special_markers.getD "") ∧
    forge_side_line name cd = card_line (cd.quantity.getD 1) name (cd.set.getD "")
      (cd.collector_number.getD "") (cd.special_markers.getD "") := by
  have hstrip : strip_split name = String.mk (name.data.take i) := by
    rw [strip_split, stripSplitAux_take name.data i hnl hsep hlen]
  exact ⟨hstrip, by rw [forge_main_line, hstrip], rfl⟩

/-- Witness for the amended C6 at the split card `"Fire / Ice"`. -/
theorem c6_amended_split_strip_witness :
    (("Fire / Ice" : String).data.all fun c => !(c = '\n')) = true ∧
    sepIndexAux ("Fire / Ice" : String).data = some 4 ∧
    strip_split "Fire / Ice" = String.mk (("Fire / Ice" : String).data.take 4) ∧
    forge_main_line "Fire / Ice" { quantity := some 1 } = "1 Fire" ∧
    forge_side_line "Fire / Ice" { quantity := some 1 } = "1 Fire / Ice" :=
  ⟨by decide, by decide,
   (c6_amended_split_strip "Fire / Ice" { quantity := some 1 } 4 (by decide) (by decide)
     (by decide)).1,
   by decide, by decide⟩

/-! ### C3/C4 — merging invariants of `insertCard` -/

/-- The duplicate-update closure of `insertCard` fixes every key. -/
theorem upd_comp_key (n : String) (q : Nat) (m : String) :
    ((fun p : String × CardData => p.1 == m) ∘
      (fun p : String × CardData => if p.1 = n then (p.1, bump p.2 q) else p)) =
    (fun p : String × CardData => p.1 == m) := by
  funext p
  by_cases hp : p.1 = n <;> simp [hp]

/-- Key presence after one merge: the merged name is now present, nothing
else changes. -/
theorem hasKey_insertCard (b : List (String × CardData)) (n : String) (q : Nat) (cd : CardData)
    (m : String) :
    hasKey m (insertCard b n q cd) = (hasKey m b || (n == m)) := by
  rw [insertCard]
  split
  · rename_i hany
    rw [hasKey, List.any_map, upd_comp_key, ← hasKey]
    by_cases hnm : n = m
    · subst hnm
      have h1 : hasKey n b = true := hany
      rw [h1]
      simp
    · have h1 : (n == m) = false := by simp [hnm]
      rw [h1]
      simp
  · rw [hasKey, hasKey, List.any_append]
    simp

/-- Key multiplicity after one merge: a duplicate name keeps its count, a
fresh name gains its single entry. -/
theorem keyCount_insertCard (b : List (String × CardData)) (n : String) (q : Nat) (cd : CardData)
    (m : String) :
    keyCount m (insertCard b n q cd) =
      keyCount m b + (if hasKey n b = true then 0 else if n == m then 1 else 0) := by
  rw [insertCard]
  split
  · rename_i hany
    have h1 : hasKey n b = true := hany
    rw [h1, if_pos rfl, keyCount, List.countP_map, upd_comp_key, ← keyCount]
    simp
  · rename_i hany
    have h1 : hasKey n b = false := by
      rw [hasKey]
      revert hany
      cases b.any (fun p => p.1 == n) <;> simp
    rw [h1]
    rw [keyCount, keyCount, List.countP_append]
    simp [List.countP_cons]

/-- The stored entry after one merge: the merged name's entry gains the
quantity (or is created from the new data); every other name's entry is
untouched. -/
theorem findEntry_insertCard (b : List (String × CardData)) (n : String) (q : Nat)
    (cd : CardData) (m : String) :
    findEntry m (insertCard b n q cd) =
      if n = m then
        (match findEntry n b with
         | some p => some (p.1, bump p.2 q)
         | none => some (n, cd))
      else findEntry m b := by
  rw [insertCard]
  split
  · rename_i hany
    rw [findEntry, List.find?_map, upd_comp_key, ← findEntry]
    by_cases hnm : n = m
    · subst hnm
      rw [if_pos rfl]
      obtain ⟨p, hp⟩ : ∃ p, findEntry n b = some p := by
        rw [findEntry]
        rw [List.any_eq_true] at hany
        obtain ⟨x, hx, hpx⟩ := hany
        exact Option.isSome_iff_exists.mp (List.find?_isSome.mpr ⟨x, hx, hpx⟩)
      rw [hp]
      have hpn : p.1 = n := by
        rw [findEntry] at hp
        simpa using List.find?_some hp
      simp [Option.map, hpn]
    · rw [if_neg hnm]
      cases hf : findEntry m b with
      | none => rfl
      | some p =>
        have hpm : p.1 = m := by
          rw [findEntry] at hf
          simpa using List.find?_some hf
        have hfix : (if p.1 = n then (p.1, bump p.2 q) else p) = p := by
          rw [hpm, if_neg (fun h => hnm h.symm)]
        simp [Option.map, hfix]
  · rename_i hany
    rw [findEntry, List.find?_append, ← findEntry]
    by_cases hnm : n = m
    · subst hnm
      have hnone : findEntry n b = none := by
        rw [findEntry, List.find?_eq_none]
        intro x hx
        rw [List.any_eq_true] at hany
        exact fun hpx => hany ⟨x, hx, hpx⟩
      rw [hnone, if_pos rfl]
      simp [List.find?]
    · rw [if_neg hnm]
      have h1 : (n == m) = false := by simp [hnm]
      simp [List.find?, h1]

/-- Key multiplicity after folding a batch of additions: an already-present
key keeps its count; a fresh key ends with exactly one entry when the batch
mentions it. -/
theorem keyCount_foldIns (adds : List (String × Nat × CardData)) :
    ∀ (b : List (String × CardData)) (m : String),
    keyCount m (foldIns b adds) =
      keyCount m b + (if hasKey m b = true then 0
        else if addsFor m adds ≠ [] then 1 else 0) := by
  induction adds with
  | nil =>
    intro b m
    have h0 : addsFor m ([] : List (String × Nat × CardData)) = [] := rfl
    rw [h0]
    simp [foldIns]
  | cons a adds ih =>
    intro b m
    rw [show foldIns b (a :: adds) = foldIns (insertCard b a.1 a.2.1 a.2.2) adds from rfl]
    rw [ih, keyCount_insertCard, hasKey_insertCard]
    by_cases ham : a.1 = m
    · subst ham
      have hf : addsFor a.1 (a :: adds) = a :: addsFor a.1 adds := by
        simp [addsFor, List.filter_cons]
      rw [hf]
      by_cases h1 : hasKey a.1 b = true
      · simp [h1]
      · have h1' : hasKey a.1 b = false := by
          revert h1; cases hasKey a.1 b <;> simp
        simp [h1']
    · have hf : addsFor m (a :: adds) = addsFor m adds := by
        simp [addsFor, List.filter_cons, ham]
      have hne : (a.1 == m) = false := by simp [ham]
      rw [hf, hne]
      by_cases h1 : hasKey m b = true
      · simp [h1]
      · have h1' : hasKey m b = false := by
          revert h1; cases hasKey m b <;> simp
        simp [h1']

/-- The stored entry after folding a batch of additions: an entry already
present accumulates all of the batch's quantities under its name (metadata
untouched); a fresh name's entry starts from the first addition's data and
accumulates the rest. -/
theorem findEntry_foldIns (adds : List (String × Nat × CardData)) :
    ∀ (b : List (String × CardData)) (m : String),
    findEntry m (foldIns b adds) =
      (match findEntry m b with
       | some p => some (p.1, bumpFold p.2 (addsFor m adds))
       | none =>
         match addsFor m adds with
         | [] => none
         | a :: rest => some (a.1, bumpFold a.2.2 rest)) := by
  induction adds with
  | nil =>
    intro b m
    have h0 : addsFor m ([] : List (String × Nat × CardData)) = [] := rfl
    rw [h0]
    cases hf : findEntry m b <;> simp [foldIns, bumpFold, hf]
  | cons a adds ih =>
    intro b m
    rw [show foldIns b (a :: adds) = foldIns (insertCard b a.1 a.2.1 a.2.2) adds from rfl]
    rw [ih, findEntry_insertCard]
    by_cases ham : a.1 = m
    · subst ham
      rw [if_pos rfl]
      have hf : addsFor a.1 (a :: adds) = a :: addsFor a.1 adds := by
        simp [addsFor, List.filter_cons]
      rw [hf]
      cases hb : findEntry a.1 b with
      | some p => rfl
      | none => rfl
    · rw [if_neg ham]
      have hf : addsFor m (a :: adds) = addsFor m adds := by
        simp [addsFor, List.filter_cons, ham]
      rw [hf]

/-- Folding quantity updates over entry data with a present quantity sums
everything into the quantity field and touches nothing else. -/
theorem bumpFold_quantity (adds : List (String × Nat × CardData)) :
    ∀ (cd : CardData) (q : Nat), cd.quantity = some q →
    bumpFold cd adds = { cd with quantity := some (q + (adds.map (fun a => a.2.1)).sum) } := by
  induction adds with
  | nil =>
    intro cd q h
    cases cd
    simp [bumpFold]
    simp_all
  | cons a adds ih =>
    intro cd q h
    rw [show bumpFold cd (a :: adds) = bumpFold (bump cd a.2.1) adds from rfl]
    rw [ih (bump cd a.2.1) (q + a.2.1) (by simp [bump, h])]
    cases cd
    simp [bump]
    simp_all [Nat.add_assoc]

/-- The parsing loop is the per-board fold of its addition stream: folding
`processLine` over the lines builds, on each board, exactly the
`insertCard`-fold of the additions `effectsFrom` attributes to that board. -/
theorem foldl_processLine_boards (lines : List String) : ∀ (st : PState),
    (lines.foldl processLine st).mainboard =
      foldIns st.mainboard (effectsFrom st.current lines Board.mainboard) ∧
    (lines.foldl processLine st).sideboard =
      foldIns st.sideboard (effectsFrom st.current lines Board.sideboard) := by
  induction lines with
  | nil => intro st; exact ⟨rfl, rfl⟩
  | cons l ls ih =>
    intro st
    rw [List.foldl_cons]
    cases he : lineEffect l with
    | skip =>
      have hp : processLine st l = st := by rw [processLine, he]
      rw [hp]
      have h1 : effectsFrom st.current (l :: ls) Board.mainboard =
          effectsFrom st.current ls Board.mainboard := by
        rw [effectsFrom, he]
      have h2 : effectsFrom st.current (l :: ls) Board.sideboard =
          effectsFrom st.current ls Board.sideboard := by
        rw [effectsFrom, he]
      rw [h1, h2]
      exact ih st
    | switch =>
      have hp : processLine st l = { st with current := Board.sideboard } := by
        rw [processLine, he]
      rw [hp]
      have h1 : effectsFrom st.current (l :: ls) Board.mainboard =
          effectsFrom Board.sideboard ls Board.mainboard := by
        rw [effectsFrom, he]
      have h2 : effectsFrom st.current (l :: ls) Board.sideboard =
          effectsFrom Board.sideboard ls Board.sideboard := by
        rw [effectsFrom, he]
      rw [h1, h2]
      exact ih { st with current := Board.sideboard }
    | add n q cd =>
      cases hcur : st.current with
      | mainboard =>
        have hp : processLine st l = { st with mainboard := insertCard st.mainboard n q cd } := by
          rw [processLine, he, hcur]
        rw [hp, hcur]
        have h1 : effectsFrom Board.mainboard (l :: ls) Board.mainboard =
            (n, q, cd) :: effectsFrom Board.mainboard ls Board.mainboard := by
          rw [effectsFrom, he]
          rfl
        have h2 : effectsFrom Board.mainboard (l :: ls) Board.sideboard =
            effectsFrom Board.mainboard ls Board.sideboard := by
          rw [effectsFrom, he]
          rfl
        rw [h1, h2]
        have := ih { st with mainboard := insertCard st.mainboard n q cd }
        rw [hcur] at this
        exact this
      | sideboard =>
        have hp : processLine st l = { st with sideboard := insertCard st.sideboard n q cd } := by
          rw [processLine, he, hcur]
        rw [hp, hcur]
        have h1 : effectsFrom Board.sideboard (l :: ls) Board.mainboard =
            effectsFrom Board.sideboard ls Board.mainboard := by
          rw [effectsFrom, he]
          rfl
        have h2 : effectsFrom Board.sideboard (l :: ls) Board.sideboard =
            (n, q, cd) :: effectsFrom Board.sideboard ls Board.sideboard := by
          rw [effectsFrom, he]
          rfl
        rw [h1, h2]
        have := ih { st with sideboard := insertCard st.sideboard n q cd }
        rw [hcur] at this
        exact this

/-- Each board of a parsed text is the fold of that text's additions into
the empty board. -/
theorem parse_board_eq (deck_text : String) (b : Board) :
    boardOf (parse_moxfield_text deck_text) b = foldIns [] (textEffects deck_text b) := by
  have h := foldl_processLine_boards (pySplitLines (pyStrip deck_text)) initState
  cases b with
  | mainboard => exact h.1
  | sideboard => exact h.2

/-- Both card-line branches store the parsed quantity in the entry's
`quantity` key. -/
theorem lineEffect_add_quantity (raw : String) (n : String) (q : Nat) (cd : CardData)
    (h : lineEffect raw = LineEffect.add n q cd) : cd.quantity = some q := by
  simp only [lineEffect] at h
  split at h
  · cases h
  · split at h
    · cases h
    · split at h
      · cases h
      · split at h
        · injection h with h1 h2 h3
          subst h2
          subst h3
          rfl
        · split at h
          · injection h with h1 h2 h3
            subst h2
            subst h3
            rfl
          · cases h

/-- A repetition with a required first occurrence only matches an input
whose first character is in the class. -/
theorem matchRun_rep_min1_head (fuel : Nat) (cls : Char → Bool) (greedy cap : Bool)
    (rest : List RItem) (s : List Char) (r : List (List Char))
    (h : matchRun (fuel + 1) (RItem.rep cls true greedy cap :: rest) s = some r) :
    ∃ c cs, s = c :: cs ∧ cls c = true := by
  cases s with
  | nil =>
    rw [matchRun] at h
    simp [List.takeWhile, firstSome] at h
  | cons c cs =>
    by_cases hc : cls c = true
    · exact ⟨c, cs, rfl, hc⟩
    · rw [matchRun] at h
      simp [List.takeWhile, hc, firstSome] at h

/-- A line recorded as a card addition starts (after stripping) with a
decimal digit: both patterns begin with `(\d+)`. -/
theorem lineEffect_add_head_digit (raw : String) (n : String) (q : Nat) (cd : CardData)
    (h : lineEffect raw = LineEffect.add n q cd) :
    ∃ c cs, (pyStrip raw).data = c :: cs ∧ c.isDigit = true := by
  simp only [lineEffect] at h
  split at h
  · cases h
  · split at h
    · cases h
    · split at h
      · cases h
      · split at h
        · rename_i heq
          obtain ⟨c, cs, hcs, hc⟩ := matchRun_rep_min1_head 11 reDigit true true _ _ _ heq
          exact ⟨c, cs, hcs, hc⟩
        · split at h
          · rename_i heq
            obtain ⟨c, cs, hcs, hc⟩ := matchRun_rep_min1_head 3 reDigit true true _ _ _ heq
            exact ⟨c, cs, hcs, hc⟩
          · cases h

/-- Every addition in a text's stream stores its parsed quantity in its
entry data. -/
theorem effectsFrom_quantity (lines : List String) : ∀ (cur b : Board),
    ∀ x ∈ effectsFrom cur lines b, x.2.2.quantity = some x.2.1 := by
  induction lines with
  | nil => intro cur b x hx; cases hx
  | cons l ls ih =>
    intro cur b x hx
    rw [effectsFrom] at hx
    cases he : lineEffect l with
    | skip => rw [he] at hx; exact ih cur b x hx
    | switch => rw [he] at hx; exact ih Board.sideboard b x hx
    | add n q cd =>
      rw [he] at hx
      rcases List.mem_append.mp hx with hx | hx
      · by_cases hc : cur = b
        · rw [if_pos hc] at hx
          simp at hx
          subst hx
          exact lineEffect_add_quantity l n q cd he
        · rw [if_neg hc] at hx
          cases hx
      · exact ih cur b x hx

/-! ### C3 — duplicate names merge by summed quantity and first-seen metadata -/

/-- C3: when a name is parsed more than once into the same group, that
group's mapping ends with exactly one entry under the name; its quantity is
the sum of all parsed quantities for the name, and its set, collector
number and special markers are the first-seen occurrence's (later
occurrences' metadata is discarded). -/
theorem c3_duplicate_merge (deck_text : String) (b : Board) (n : String)
    (h2 : 2 ≤ (addsFor n (textEffects deck_text b)).length) :
    keyCount n (boardOf (parse_moxfield_text deck_text) b) = 1 ∧
    ∃ a rest, addsFor n (textEffects deck_text b) = a :: rest ∧
      findEntry n (boardOf (parse_moxfield_text deck_text) b) =
        some (n, CardData.mk
          (some (((addsFor n (textEffects deck_text b)).map (fun x => x.2.1)).sum))
          a.2.2.set a.2.2.collector_number a.2.2.special_markers) := by
  obtain ⟨a, rest, har⟩ : ∃ a rest, addsFor n (textEffects deck_text b) = a :: rest := by
    cases hf : addsFor n (textEffects deck_text b) with
    | nil => rw [hf] at h2; simp at h2
    | cons a rest => exact ⟨a, rest, rfl⟩
  have hane : a.1 = n ∧ a ∈ textEffects deck_text b := by
    have hmem : a ∈ addsFor n (textEffects deck_text b) := by rw [har]; simp
    rw [addsFor] at hmem
    have := List.mem_filter.mp hmem
    exact ⟨by simpa using this.2, this.1⟩
  have haq : a.2.2.quantity = some a.2.1 :=
    effectsFrom_quantity (pySplitLines (pyStrip deck_text)) Board.mainboard b a hane.2
  constructor
  · rw [parse_board_eq, keyCount_foldIns]
    have h0 : keyCount n ([] : List (String × CardData)) = 0 := rfl
    have h1 : hasKey n ([] : List (String × CardData)) = false := rfl
    rw [h0, h1, har]
    simp
  · refine ⟨a, rest, har, ?_⟩
    rw [parse_board_eq, findEntry_foldIns]
    have h1 : findEntry n ([] : List (String × CardData)) = none := rfl
    rw [h1, har]
    show some (a.1, bumpFold a.2.2 rest) = _
    rw [bumpFold_quantity rest a.2.2 a.2.1 haq, hane.1]
    have hsum : ((a :: rest).map (fun x => x.2.1)).sum =
        a.2.1 + (rest.map (fun x => x.2.1)).sum := by
      simp
    rw [hsum]

/-- Witness for C3: the same card line twice yields one entry with quantity
2 and the first occurrence's set and collector data. -/
theorem c3_duplicate_merge_witness :
    2 ≤ (addsFor "Sol Ring"
      (textEffects "1 Sol Ring (MIC) 162\n1 Sol Ring (C21) 263" Board.mainboard)).length ∧
    keyCount "Sol Ring" (boardOf
      (parse_moxfield_text "1 Sol Ring (MIC) 162\n1 Sol Ring (C21) 263") Board.mainboard) = 1 ∧
    (∃ a rest, addsFor "Sol Ring"
        (textEffects "1 Sol Ring (MIC) 162\n1 Sol Ring (C21) 263" Board.mainboard) = a :: rest ∧
      findEntry "Sol Ring" (boardOf
          (parse_moxfield_text "1 Sol Ring (MIC) 162\n1 Sol Ring (C21) 263") Board.mainboard) =
        some ("Sol Ring", CardData.mk
          (some (((addsFor "Sol Ring"
            (textEffects "1 Sol Ring (MIC) 162\n1 Sol Ring (C21) 263"
              Board.mainboard)).map (fun x => x.2.1)).sum))
          a.2.2.set a.2.2.collector_number a.2.2.special_markers)) :=
  ⟨by decide,
   (c3_duplicate_merge "1 Sol Ring (MIC) 162\n1 Sol Ring (C21) 263" Board.mainboard "Sol Ring"
     (by decide)).1,
   (c3_duplicate_merge "1 Sol Ring (MIC) 162\n1 Sol Ring (C21) 263" Board.mainboard "Sol Ring"
     (by decide)).2⟩

/-! ### C4 — quantities of recorded entries -/

/-- One merge preserves "every entry has its quantity key" (the new entry's
data must have it). -/
theorem insertCard_quantity_present (b : List (String × CardData)) (n : String) (q : Nat)
    (cd : CardData) (hcd : cd.quantity = some q)
    (hb : ∀ p ∈ b, ∃ w, p.2.quantity = some w) :
    ∀ p ∈ insertCard b n q cd, ∃ w, p.2.quantity = some w := by
  intro p hp
  rw [insertCard] at hp
  split at hp
  · obtain ⟨x, hx, hfx⟩ := List.mem_map.mp hp
    by_cases hxn : x.1 = n
    · rw [if_pos hxn] at hfx
      subst hfx
      exact ⟨x.2.quantity.getD 0 + q, rfl⟩
    · rw [if_neg hxn] at hfx
      subst hfx
      exact hb x hx
  · rcases List.mem_append.mp hp with hp | hp
    · exact hb p hp
    · simp at hp
      subst hp
      exact ⟨q, hcd⟩

/-- Folding a stream of additions that all carry their quantity keeps every
entry's quantity key present. -/
theorem foldIns_quantity_present (adds : List (String × Nat × CardData)) :
    ∀ (b : List (String × CardData)),
    (∀ x ∈ adds, x.2.2.quantity = some x.2.1) →
    (∀ p ∈ b, ∃ w, p.2.quantity = some w) →
    ∀ p ∈ foldIns b adds, ∃ w, p.2.quantity = some w := by
  induction adds with
  | nil => intro b _ hb; exact hb
  | cons a adds ih =>
    intro b hadds hb
    rw [show foldIns b (a :: adds) = foldIns (insertCard b a.1 a.2.1 a.2.2) adds from rfl]
    exact ih (insertCard b a.1 a.2.1 a.2.2)
      (fun x hx => hadds x (by simp [hx]))
      (insertCard_quantity_present b a.1 a.2.1 a.2.2 (hadds a (by simp)) hb)

/-- Counterexample to C4 as stated: the line `"0 Forest"` has leading
integer zero, yet it matches the fallback pattern and records an entry with
quantity 0 — a quantity ≤ 0 entry is created. -/
theorem c4_zero_quantity_counterexample :
    (parse_moxfield_text "0 Forest").mainboard = [("Forest", { quantity := some 0 })] ∧
    ∃ p ∈ (parse_moxfield_text "0 Forest").mainboard, p.2.quantity = some 0 :=
  ⟨by decide, ("Forest", { quantity := some 0 }), by decide, rfl⟩

/-- C4 amended: every entry either group of the line parser records has its
quantity key present (with a non-negative value); a line whose leading
token is not a digit run (a negative number, or no number) fails both
patterns and is silently skipped — every recorded addition's line starts,
after stripping, with a decimal digit.  A leading integer zero, however,
does match (see the counterexample), so `quantity = 0` entries can occur. -/
theorem c4_amended_quantity_present :
    (∀ (deck_text : String) (b : Board) (p : String × CardData),
      p ∈ boardOf (parse_moxfield_text deck_text) b → ∃ q, p.2.quantity = some q) ∧
    (∀ (raw : String) (n : String) (q : Nat) (cd : CardData),
      lineEffect raw = LineEffect.add n q cd →
      cd.quantity = some q ∧ ∃ c cs, (pyStrip raw).data = c :: cs ∧ c.isDigit = true) := by
  constructor
  · intro deck_text b p hp
    rw [parse_board_eq] at hp
    exact foldIns_quantity_present (textEffects deck_text b) []
      (effectsFrom_quantity (pySplitLines (pyStrip deck_text)) Board.mainboard b)
      (fun p hp => by cases hp) p hp
  · intro raw n q cd h
    exact ⟨lineEffect_add_quantity raw n q cd h, lineEffect_add_head_digit raw n q cd h⟩

/-- Witness for the amended C4 on a parsed two-line deck. -/
theorem c4_amended_quantity_present_witness :
    (("Lightning Bolt", CardData.mk (some 4) none none none) ∈
      boardOf (parse_moxfield_text "4 Lightning Bolt\n2 Shock") Board.mainboard) ∧
    (∃ q, (("Lightning Bolt", CardData.mk (some 4) none none none) :
      String × CardData).2.quantity = some q) :=
  ⟨by decide,
   c4_amended_quantity_present.1 "4 Lightning Bolt\n2 Shock" Board.mainboard
     ("Lightning Bolt", CardData.mk (some 4) none none none) (by decide)⟩
